import Mathlib

/-!
Verification development for the `generate_readme` pipeline
(`src/generate_readme/generate_readme.py`).

The development shallowly embeds the script:

* `Json` models the Python JSON values handled by the converter.  A Python
  scalar (string, number, bool, null) is characterized by the two strings the
  script can extract from it: its `str()` form and its `repr()` form; both are
  carried as data, since the script never inspects scalars any deeper.
* `json_to_markdown_table` / `json_to_markdown` are direct translations of the
  two converter functions.  Python raising `AttributeError` (calling `.keys()`
  or `.items()` on a non-dict) is modelled by `Option`: `none` is an escaping
  exception.
* The branch publisher is modelled over the list of existing local branches;
  `git branch --list <name>` is modelled as a membership test.
* The `__main__` pipeline is modelled as a function from an environment and a
  world of external outcomes (file existence, subprocess results, network
  results) to the list of observable actions it performs.
-/

/-- A Python JSON value.  `scalar s r` is a non-dict non-list value with
`str()` form `s` and `repr()` form `r`; `obj` is a dict (association list in
insertion order, keys unique as in Python); `arr` is a list. -/
inductive Json where
  | scalar (s r : String)
  | obj (fields : List (String × Json))
  | arr (items : List Json)

/-- Python `"sep".join(parts)`. -/
def joinSep (sep : String) : List String → String
  | [] => ""
  | [x] => x
  | x :: rest => x ++ sep ++ joinSep sep rest

mutual
/-- Python `repr` of a JSON value, as produced for dict/list containers.
String quoting inside containers uses the carried `r` field for scalars and a
plain single-quote rule for keys (Python's rule for keys without quote or
escape characters; keys in this development are plain identifiers). -/
def pyRepr : Json → String
  | Json.scalar _ r => r
  | Json.obj fields => "\x7b" ++ pyReprFields fields ++ "\x7d"
  | Json.arr items => "[" ++ pyReprItems items ++ "]"

/-- Python `repr` of the `key: value` entries of a dict. -/
def pyReprFields : List (String × Json) → String
  | [] => ""
  | [(k, v)] => "\x27" ++ k ++ "\x27: " ++ pyRepr v
  | (k, v) :: rest => "\x27" ++ k ++ "\x27: " ++ pyRepr v ++ ", " ++ pyReprFields rest

/-- Python `repr` of the elements of a list. -/
def pyReprItems : List Json → String
  | [] => ""
  | [v] => pyRepr v
  | v :: rest => pyRepr v ++ ", " ++ pyReprItems rest
end

/-- Python `str` of a JSON value (used by the f-strings of the converter).
For dicts and lists, Python `str` coincides with `repr`. -/
def pyStr : Json → String
  | Json.scalar s _ => s
  | v => pyRepr v

/-- One table cell, line 53 of the source:
`str(table_item[key]) if not isinstance(table_item[key], (dict, list)) else "..."`. -/
def cellStr : Json → String
  | Json.scalar s _ => s
  | Json.obj _ => "..."
  | Json.arr _ => "..."

/-- One iteration of the loop of `json_to_markdown_table` (lines 48-55).
The accumulator is the pair `(markdown, create_table_heading)`; `none` is a
raised `AttributeError` (a non-dict element has no `.keys()`).  When the
heading has not been created yet, the source *assigns* the header to
`markdown` (line 51), discarding the accumulator; we translate that
assignment literally.  Iterating a dict's `keys()` and indexing back into the
same dict visits each entry once in insertion order, which for the unique-key
association lists modelling Python dicts is `fields.map`. -/
def tableStep (acc : Option (String × Bool)) (item : Json) : Option (String × Bool) :=
  match acc, item with
  | some (markdown, create_table_heading), Json.obj fields =>
    let keys := fields.map Prod.fst
    let markdown1 :=
      if create_table_heading then markdown
      else ("| " ++ joinSep (" | ") keys ++ " |\n") ++
           ("| " ++ joinSep (" | ") (keys.map fun _ => "---") ++ " |\n")
    let values := fields.map fun kv => cellStr kv.2
    some (markdown1 ++ ("| " ++ joinSep (" | ") values ++ " |\n"), true)
  | _, _ => none

/-- Lines 39-57 of the source: converts a list of dictionaries to a markdown
table; `none` models the `AttributeError` raised on a non-dict element. -/
def json_to_markdown_table (table_list : List Json) : Option String :=
  (table_list.foldl tableStep (some (("", false)))).map Prod.fst

/-- The loop of `json_to_markdown` (lines 67-83), with `markdown` as the
accumulated string.  The nested-dict branch (lines 72-73) calls the converter
recursively and discards the produced string — only a raised exception
escapes.  After every key's block the loop appends one blank line (line 82). -/
def jmGo (json_data : List (String × Json)) (markdown : String) : Option String :=
  match json_data with
  | [] => some markdown
  | (key, value) :: rest =>
    if key = "title" then
      jmGo rest ((markdown ++ ("# " ++ pyStr value ++ "\n")) ++ "\n")
    else
      match value with
      | Json.obj fields =>
        match jmGo fields ("") with
        | none => none
        | some _ => jmGo rest (markdown ++ "\n")
      | Json.arr items =>
        match json_to_markdown_table items with
        | none => none
        | some t =>
          jmGo rest ((((markdown ++ ("## " ++ key ++ "\n")) ++ "\n") ++ t) ++ "\n")
      | Json.scalar s _ =>
        jmGo rest ((((markdown ++ ("## " ++ key ++ "\n")) ++ "\n") ++
          (" " ++ s ++ "\n")) ++ "\n")
termination_by sizeOf json_data
decreasing_by all_goals simp_wf <;> omega

/-- Lines 60-83 of the source: converts a dict (insertion-ordered association
list) to markdown; `none` models an escaping `AttributeError`. -/
def json_to_markdown (json_data : List (String × Json)) : Option String :=
  jmGo json_data ("")

/-- `json_to_markdown` applied to an arbitrary JSON value, as done on the
parsed completion response: a non-dict has no `.items()` and raises. -/
def json_to_markdown_value : Json → Option String
  | Json.obj fields => json_to_markdown fields
  | _ => none

/-! ### Branch publisher (lines 145-225 of the source) -/

/-- Decimal digit characters. -/
def digitChar : Nat → Char
  | 0 => '0' | 1 => '1' | 2 => '2' | 3 => '3' | 4 => '4'
  | 5 => '5' | 6 => '6' | 7 => '7' | 8 => '8' | 9 => '9'
  | _ => '*'

/-- Numeric value of a decimal digit character. -/
def digitVal : Char → Nat
  | '0' => 0 | '1' => 1 | '2' => 2 | '3' => 3 | '4' => 4
  | '5' => 5 | '6' => 6 | '7' => 7 | '8' => 8 | '9' => 9
  | _ => 10

/-- Digit accumulation loop for the decimal rendering of a `Nat`.  The fuel
argument makes the recursion structural; `natToDec` supplies fuel `n + 1`,
which always suffices since `n < 10 ^ (n + 1)`. -/
def toDecGo : Nat → Nat → List Char → List Char
  | 0, _, acc => acc
  | fuel + 1, n, acc =>
    if n < 10 then digitChar n :: acc
    else toDecGo fuel (n / 10) (digitChar (n % 10) :: acc)

/-- Value of a decimal digit string (used to prove `natToDec` injective). -/
def decVal (cs : List Char) : Nat :=
  cs.foldl (fun a c => 10 * a + digitVal c) 0

/-- Python `str(n)` for a non-negative integer: decimal, no leading zeros. -/
def natToDec (n : Nat) : String := String.mk (toDecGo (n + 1) n [])

/-- Lines 145-157 of the source: `git branch --list <branch_name>` prints the
branch iff it exists, and the function tests whether the stdout is non-empty.
We model the local branch state as the list of existing branch names and the
probe as a membership test (the `--list` glob syntax is not exercised by the
script, which only passes plain branch names). -/
def check_branch_exists (branches : List String) (branch_name : String) : Bool :=
  branches.contains branch_name

/-- The candidate probed at step `k` of the uniqueness loop: the base name
first, then `f"{base_branch_name}-{counter}"` for `counter = 1, 2, ...`. -/
def branchCandidate (base_branch_name : String) : Nat → String
  | 0 => base_branch_name
  | k + 1 => base_branch_name ++ "-" ++ natToDec (k + 1)

/-- The `while` loop of `get_unique_branch_name` (lines 167-172), returning
the chosen name together with the list of names probed (each probe is one
`git branch --list` invocation).  The loop terminates because the candidates
are pairwise distinct and the branch list is finite; the fuel argument caps
the number of probes at `branches.length + 1`, which is proved sufficient
(`guGo_spec` below), so the fuel-exhausted branch is never taken. -/
def guGo (branches : List String) (base_branch_name : String) :
    Nat → Nat → String × List String
  | 0, k => (branchCandidate base_branch_name k, [])
  | fuel + 1, k =>
    let name := branchCandidate base_branch_name k
    if check_branch_exists branches name then
      let r := guGo branches base_branch_name fuel (k + 1)
      (r.1, name :: r.2)
    else (name, [name])

/-- Lines 160-172 of the source: linear probe for an unused branch name. -/
def get_unique_branch_name (branches : List String) (base_branch_name : String) : String :=
  (guGo branches base_branch_name (branches.length + 1) 0).1

/-- The branch names probed (one `git branch --list` call each) while
selecting the unique branch name. -/
def branch_probes (branches : List String) (base_branch_name : String) : List String :=
  (guGo branches base_branch_name (branches.length + 1) 0).2

/-! ### Pipeline (`__main__`, lines 228-246 of the source) -/

/-- The environment variables read at lines 27-34.  `OUTPUT_PATH` defaults to
`"README.md"` and `BRANCH_NAME` to `"doc-update"` when unset. -/
structure Env where
  LANGUAGE : String
  GITHUB_TOKEN : String
  GITHUB_REPOSITORY : String
  TEMPLATE_PATH : String
  OUTPUT_PATH : String
  BRANCH_NAME : String

/-- Result of a `subprocess.run` invocation. -/
structure RunResult where
  returncode : Int
  stdout : String

/-- External outcomes of one run: what the file system, git and the network
would answer.  `gitOk args` tells whether the checked git command with the
given arguments succeeds; `gitErr args` is the message of the
`CalledProcessError` it raises otherwise. -/
structure World where
  output_exists : Bool
  template_read : Except String Json
  diff : RunResult
  completion : Except String Json
  branches : List String
  gitOk : List String → Bool
  gitErr : List String → String
  write_err : Option String

/-- An observable action of the pipeline, in the order performed. -/
inductive PipeAction where
  | print (s : String)
  | openTemplate (path : String)
  | runGitDiff
  | callCompletion
  | writeOutput (path : String) (content : String)
  | runGit (args : List String)

/-- Lines 128-142 of the source: `git diff HEAD~1 HEAD`, raising
`Exception("Failed to get git diff.")` on a non-zero exit status and
returning the raw stdout otherwise. -/
def get_commit_diff (result : RunResult) : Except String String :=
  if result.returncode ≠ 0 then Except.error ("Failed to get git diff.")
  else Except.ok result.stdout

/-- The checked git commands run by `commit_and_push` after the branch name is
chosen (lines 192-225, including `set_git_remote_with_token`). -/
def gitOpsList (env : Env) (unique_branch_name file_path : String) : List (List String) :=
  [["config", "--local", "user.name", "github-actions[bot]"],
   ["config", "--local", "user.email", "github-actions[bot]@users.noreply.github.com"],
   ["remote", "set-url", "origin",
    "https://github-actions:" ++ env.GITHUB_TOKEN ++ "@github.com/" ++ env.GITHUB_REPOSITORY],
   ["checkout", "-b", unique_branch_name],
   ["add", file_path],
   ["commit", "-m", "Update " ++ file_path ++ " with latest documentation"],
   ["push", "origin", unique_branch_name]]

/-- Runs a sequence of `check=True` git commands: each is attempted in order
and the first failure raises, aborting the rest. -/
def runChecked (w : World) : List (List String) → List PipeAction × Option String
  | [] => ([], none)
  | args :: rest =>
    if w.gitOk args then
      let r := runChecked w rest
      (PipeAction.runGit args :: r.1, r.2)
    else ([PipeAction.runGit args], some (w.gitErr args))

/-- Lines 183-225 of the source: choose a unique branch name (probing the
branch list), then run the checked git commands in order. -/
def commit_and_push (env : Env) (w : World) (branch_name file_path : String) :
    List PipeAction × Option String :=
  let unique_branch_name := get_unique_branch_name w.branches branch_name
  let probeActs := (branch_probes w.branches branch_name).map
    (fun n => PipeAction.runGit ["branch", "--list", n])
  let r := runChecked w (gitOpsList env unique_branch_name file_path)
  (probeActs ++ r.1, r.2)

/-- The message of the `AttributeError` escaping `json_to_markdown` when a
table element or the parsed response is not a dict. -/
def attributeErrorMsg : String := "object has no attribute"

/-- Lines 228-246 of the source: the `__main__` pipeline inside its single
`try`/`except Exception` block, as the list of observable actions.  Every
raised error is caught once at the top and printed with the `Error: ` prefix;
the process then falls off the end of the script (exit status 0). -/
def mainRun (env : Env) (w : World) : List PipeAction :=
  if w.output_exists then
    [PipeAction.print (env.OUTPUT_PATH ++ " already exists. Skipping generation.")]
  else
    PipeAction.openTemplate env.TEMPLATE_PATH ::
    match w.template_read with
    | Except.error e => [PipeAction.print ("Error: " ++ e)]
    | Except.ok _template =>
      PipeAction.runGitDiff ::
      match get_commit_diff w.diff with
      | Except.error e => [PipeAction.print ("Error: " ++ e)]
      | Except.ok _commit_diff =>
        PipeAction.callCompletion ::
        match w.completion with
        | Except.error e => [PipeAction.print ("Error: " ++ e)]
        | Except.ok json_data =>
          match json_to_markdown_value json_data with
          | none => [PipeAction.print ("Error: " ++ attributeErrorMsg)]
          | some readme_content =>
            PipeAction.writeOutput env.OUTPUT_PATH readme_content ::
            match w.write_err with
            | some e => [PipeAction.print ("Error: " ++ e)]
            | none =>
              let r := commit_and_push env w env.BRANCH_NAME env.OUTPUT_PATH
              r.1 ++ (match r.2 with
                      | some e => [PipeAction.print ("Error: " ++ e)]
                      | none => [])

/-! ### Lines of a rendered document

To state properties about headings and rows we split the rendered string at
newline characters, exactly as the markdown text is divided into lines. -/

/-- Splits a character list at every newline; the result always has one more
entry than the number of newlines (so a trailing newline yields a final empty
line), matching how the rendered markdown divides into lines. -/
def splitLines : List Char → List (List Char)
  | [] => [[]]
  | c :: rest =>
    if c = '\n' then [] :: splitLines rest
    else
      match splitLines rest with
      | [] => [[c]]
      | l :: ls => (c :: l) :: ls

/-- The lines of a string. -/
def linesOf (s : String) : List String := (splitLines s.data).map String.mk

/-- Whether a string contains a newline character. -/
def hasNL (s : String) : Bool := decide (('\n' : Char) ∈ s.data)

mutual
/-- Every string carried by the value (keys, `str()` forms, `repr()` forms)
is newline-free. -/
def jsonNoNL : Json → Bool
  | Json.scalar s r => !hasNL s && !hasNL r
  | Json.obj fields => fieldsNoNL fields
  | Json.arr items => itemsNoNL items

/-- `jsonNoNL` over the entries of a dict, keys included. -/
def fieldsNoNL : List (String × Json) → Bool
  | [] => true
  | (k, v) :: rest => !hasNL k && jsonNoNL v && fieldsNoNL rest

/-- `jsonNoNL` over the elements of a list. -/
def itemsNoNL : List Json → Bool
  | [] => true
  | v :: rest => jsonNoNL v && itemsNoNL rest
end

/-- Whether a line is an H1 heading line, i.e. starts with `# `. -/
def isH1Line (l : String) : Bool :=
  match l.data with
  | c1 :: c2 :: _ => c1 == '#' && c2 == ' '
  | _ => false

/-- The header row of the table, from the first element's keys in their
insertion order (line 51 of the source), without the trailing newline. -/
def headerCellsLine (fields : List (String × Json)) : String :=
  "| " ++ joinSep (" | ") (fields.map Prod.fst) ++ " |"

/-- The separator row of the table (line 52 of the source), without the
trailing newline. -/
def sepCellsLine (fields : List (String × Json)) : String :=
  "| " ++ joinSep (" | ") (fields.map fun _ => "---") ++ " |"

/-- The data row produced for one table element (lines 53-54 of the source),
without the trailing newline. -/
def rowCellsLine (fields : List (String × Json)) : String :=
  "| " ++ joinSep (" | ") (fields.map fun kv => cellStr kv.2) ++ " |"

/-- The fields of a dict value (`[]` for non-dicts; only applied to dicts). -/
def objFields : Json → List (String × Json)
  | Json.obj fields => fields
  | _ => []

/-- Concatenation of a list of strings (in order). -/
def strConcat : List String → String
  | [] => ""
  | s :: rest => s ++ strConcat rest

/-- The lines contributed by `json_to_markdown_table` (plus the blank line the
caller appends after the table): nothing but that blank line for an empty
list, otherwise header, separator, one data row per element, blank line. -/
def tableLines : List Json → List String
  | [] => [""]
  | e0 :: rest =>
    headerCellsLine (objFields e0) :: sepCellsLine (objFields e0) ::
      ((e0 :: rest).map fun e => rowCellsLine (objFields e)) ++ [""]

/-- The markdown contributed by one key of the document (one iteration of the
loop of `json_to_markdown`, lines 68-82), as an `Option`: `none` is a raised
`AttributeError`. -/
def entryMd : String × Json → Option String
  | (key, value) =>
    if key = "title" then some (("# " ++ pyStr value ++ "\n") ++ "\n")
    else
      match value with
      | Json.obj fields => (jmGo fields ("")).map fun _ => "\n"
      | Json.arr items =>
        (json_to_markdown_table items).map fun t =>
          ((("## " ++ key ++ "\n") ++ "\n") ++ t) ++ "\n"
      | Json.scalar s _ =>
        some (((("## " ++ key ++ "\n") ++ "\n") ++ (" " ++ s ++ "\n")) ++ "\n")

/-- The lines contributed by one key of the document (without the final empty
line of the whole document). -/
def entryLines : String × Json → List String
  | (key, value) =>
    if key = "title" then ["# " ++ pyStr value, ""]
    else
      match value with
      | Json.obj _ => [""]
      | Json.arr items => ("## " ++ key) :: "" :: tableLines items
      | Json.scalar s _ => ["## " ++ key, "", " " ++ s, ""]

/-- Whether a printed line starts with the fixed prefix `Error: `. -/
def startsWithError (s : String) : Bool :=
  match s.data with
  | c1 :: c2 :: c3 :: c4 :: c5 :: c6 :: c7 :: _ =>
    c1 == 'E' && (c2 == 'r' && (c3 == 'r' && (c4 == 'o' && (c5 == 'r' && (c6 == ':' && c7 == ' ')))))
  | _ => false

/-- Whether an action is a print of an error line. -/
def isErrorPrint : PipeAction → Bool
  | PipeAction.print s => startsWithError s
  | _ => false

/-! ### Basic lemmas about lines -/

theorem splitLines_ne_nil (cs : List Char) : splitLines cs ≠ [] := by
  induction cs with
  | nil => simp [splitLines]
  | cons c rest ih =>
    simp only [splitLines]
    split
    · simp
    · split
      · simp
      · simp

theorem splitLines_newline (b : List Char) :
    splitLines ('\n' :: b) = [] :: splitLines b := by
  simp [splitLines]

theorem splitLines_append_newline (a b : List Char) (h : ('\n' : Char) ∉ a) :
    splitLines (a ++ '\n' :: b) = a :: splitLines b := by
  induction a with
  | nil => simp [splitLines]
  | cons c a ih =>
    have hc : ¬(c = '\n') := fun e => h (by simp [e])
    have hna : ('\n' : Char) ∉ a := fun m => h (List.mem_cons_of_mem _ m)
    simp only [List.cons_append, splitLines, if_neg hc]
    rw [show a.append ('\n' :: b) = a ++ '\n' :: b from rfl, ih hna]

theorem splitLines_of_no_newline (a : List Char) (h : ('\n' : Char) ∉ a) :
    splitLines a = [a] := by
  induction a with
  | nil => simp [splitLines]
  | cons c a ih =>
    have hc : ¬(c = '\n') := fun e => h (by simp [e])
    have hna : ('\n' : Char) ∉ a := fun m => h (List.mem_cons_of_mem _ m)
    simp only [splitLines, if_neg hc]
    rw [ih hna]

/-! ### Decomposition lemmas for the converter -/

theorem jmGo_nil (md : String) : jmGo [] md = some md := by
  rw [jmGo.eq_def]

theorem jmGo_title (value : Json) (rest : List (String × Json)) (md : String) :
    jmGo (("title", value) :: rest) md =
      jmGo rest ((md ++ ("# " ++ pyStr value ++ "\n")) ++ "\n") := by
  conv_lhs => rw [jmGo.eq_def]
  dsimp only
  rw [if_pos rfl]

theorem jmGo_scalar (key : String) (hk : key ≠ "title") (s r : String)
    (rest : List (String × Json)) (md : String) :
    jmGo ((key, Json.scalar s r) :: rest) md =
      jmGo rest ((((md ++ ("## " ++ key ++ "\n")) ++ "\n") ++ (" " ++ s ++ "\n")) ++ "\n") := by
  conv_lhs => rw [jmGo.eq_def]
  simp only [if_neg hk]

theorem jmGo_obj (key : String) (hk : key ≠ "title") (fields rest : List (String × Json))
    (md : String) :
    jmGo ((key, Json.obj fields) :: rest) md =
      match jmGo fields ("") with
      | none => none
      | some _ => jmGo rest (md ++ "\n") := by
  conv_lhs => rw [jmGo.eq_def]
  simp only [if_neg hk]

theorem jmGo_arr (key : String) (hk : key ≠ "title") (items : List Json)
    (rest : List (String × Json)) (md : String) :
    jmGo ((key, Json.arr items) :: rest) md =
      match json_to_markdown_table items with
      | none => none
      | some t => jmGo rest ((((md ++ ("## " ++ key ++ "\n")) ++ "\n") ++ t) ++ "\n") := by
  conv_lhs => rw [jmGo.eq_def]
  simp only [if_neg hk]

theorem jmGo_acc (l : List (String × Json)) (md : String) :
    jmGo l md = (jmGo l ("")).map fun m => md ++ m := by
  induction l generalizing md with
  | nil => simp [jmGo_nil]
  | cons kv rest ih =>
    obtain ⟨key, value⟩ := kv
    by_cases hk : key = "title"
    · subst hk
      rw [jmGo_title, jmGo_title]
      conv_rhs => rw [ih]
      conv_lhs => rw [ih]
      cases jmGo rest ("") <;>
        simp [String.append_assoc, String.empty_append, String.append_empty]
    · cases value with
      | scalar s r =>
        rw [jmGo_scalar key hk, jmGo_scalar key hk]
        conv_rhs => rw [ih]
        conv_lhs => rw [ih]
        cases jmGo rest ("") <;>
          simp [String.append_assoc, String.empty_append, String.append_empty]
      | obj fields =>
        rw [jmGo_obj key hk, jmGo_obj key hk]
        cases jmGo fields ("") with
        | none => rfl
        | some m =>
          dsimp only
          conv_rhs => rw [ih]
          conv_lhs => rw [ih]
          cases jmGo rest ("") <;>
            simp [String.append_assoc, String.empty_append, String.append_empty]
      | arr items =>
        rw [jmGo_arr key hk, jmGo_arr key hk]
        cases json_to_markdown_table items with
        | none => rfl
        | some t =>
          dsimp only
          conv_rhs => rw [ih]
          conv_lhs => rw [ih]
          cases jmGo rest ("") <;>
            simp [String.append_assoc, String.empty_append, String.append_empty]

theorem jmGo_append (l1 l2 : List (String × Json)) (md : String) :
    jmGo (l1 ++ l2) md = (jmGo l1 md).bind fun m => jmGo l2 m := by
  induction l1 generalizing md with
  | nil => simp [jmGo_nil]
  | cons kv rest ih =>
    obtain ⟨key, value⟩ := kv
    by_cases hk : key = "title"
    · subst hk
      rw [List.cons_append, jmGo_title, jmGo_title, ih]
    · cases value with
      | scalar s r =>
        rw [List.cons_append, jmGo_scalar key hk, jmGo_scalar key hk, ih]
      | obj fields =>
        rw [List.cons_append, jmGo_obj key hk, jmGo_obj key hk]
        cases jmGo fields ("") with
        | none => rfl
        | some m => dsimp only; rw [ih]
      | arr items =>
        rw [List.cons_append, jmGo_arr key hk, jmGo_arr key hk]
        cases json_to_markdown_table items with
        | none => rfl
        | some t => dsimp only; rw [ih]

theorem jtm_cons (kv : String × Json) (rest : List (String × Json)) :
    json_to_markdown (kv :: rest) =
      (entryMd kv).bind fun e => (json_to_markdown rest).map fun m => e ++ m := by
  obtain ⟨key, value⟩ := kv
  by_cases hk : key = "title"
  · subst hk
    rw [json_to_markdown, json_to_markdown, jmGo_title, jmGo_acc]
    simp only [entryMd, reduceIte]
    cases jmGo rest ("") <;>
      simp [String.append_assoc, String.empty_append, String.append_empty]
  · cases value with
    | scalar s r =>
      rw [json_to_markdown, json_to_markdown, jmGo_scalar key hk, jmGo_acc]
      simp only [entryMd, if_neg hk]
      cases jmGo rest ("") <;>
        simp [String.append_assoc, String.empty_append, String.append_empty]
    | obj fields =>
      rw [json_to_markdown, json_to_markdown, jmGo_obj key hk]
      simp only [entryMd, if_neg hk]
      cases jmGo fields ("") with
      | none => rfl
      | some m =>
        dsimp only
        rw [jmGo_acc]
        cases jmGo rest ("") <;>
          simp [String.append_assoc, String.empty_append, String.append_empty]
    | arr items =>
      rw [json_to_markdown, json_to_markdown, jmGo_arr key hk]
      simp only [entryMd, if_neg hk]
      cases json_to_markdown_table items with
      | none => rfl
      | some t =>
        dsimp only
        rw [jmGo_acc]
        cases jmGo rest ("") <;>
          simp [String.append_assoc, String.empty_append, String.append_empty]

/-! ### Table lemmas -/

theorem table_foldl_none (items : List Json) : items.foldl tableStep none = none := by
  induction items with
  | nil => rfl
  | cons e rest ih => simpa [tableStep] using ih

theorem table_nil : json_to_markdown_table [] = some ("") := rfl

theorem table_foldl_rows :
    ∀ (items : List Json) (md : String), (∀ e ∈ items, ∃ f, e = Json.obj f) →
      items.foldl tableStep (some ((md, true))) =
        some ((md ++ strConcat (items.map fun e => rowCellsLine (objFields e) ++ "\n"), true)) := by
  intro items
  induction items with
  | nil => intro md h; simp [strConcat, String.append_empty]
  | cons e rest ih =>
    intro md h
    obtain ⟨f, rfl⟩ := h e (List.mem_cons_self e rest)
    rw [List.foldl_cons]
    have hstep : tableStep (some ((md, true))) (Json.obj f) =
        some ((md ++ (rowCellsLine f ++ "\n"), true)) := by
      simp [tableStep, rowCellsLine, String.append_assoc]
    rw [hstep, ih _ (fun x hx => h x (List.mem_cons_of_mem _ hx))]
    simp [strConcat, objFields, String.append_assoc]

theorem table_all_obj (f0 : List (String × Json)) (restItems : List Json)
    (h : ∀ e ∈ restItems, ∃ f, e = Json.obj f) :
    json_to_markdown_table (Json.obj f0 :: restItems) =
      some ((((headerCellsLine f0 ++ "\n") ++ (sepCellsLine f0 ++ "\n")) ++
        (rowCellsLine f0 ++ "\n")) ++
        strConcat (restItems.map fun e => rowCellsLine (objFields e) ++ "\n")) := by
  rw [json_to_markdown_table, List.foldl_cons]
  have hstep : tableStep (some (("", false))) (Json.obj f0) =
      some (((((headerCellsLine f0 ++ "\n") ++ (sepCellsLine f0 ++ "\n")) ++
        (rowCellsLine f0 ++ "\n")), true)) := by
    simp [tableStep, headerCellsLine, sepCellsLine, rowCellsLine, String.append_assoc,
      List.map_map, Function.comp_def]
  rw [hstep, table_foldl_rows _ _ h]
  simp [String.append_assoc]

theorem table_ok_all_obj (items : List Json) :
    ∀ acc x, items.foldl tableStep (some acc) = some x →
      ∀ e ∈ items, ∃ f, e = Json.obj f := by
  induction items with
  | nil => intro acc x _ e he; cases he
  | cons e0 rest ih =>
    intro acc x hfold e he
    rw [List.foldl_cons] at hfold
    cases e0 with
    | obj f0 =>
      rcases List.mem_cons.mp he with rfl | hmem
      · exact ⟨f0, rfl⟩
      · obtain ⟨md, flag⟩ := acc
        exact ih _ x (by simpa [tableStep] using hfold) e hmem
    | scalar s r =>
      obtain ⟨md, flag⟩ := acc
      rw [show tableStep (some ((md, flag))) (Json.scalar s r) = none from rfl,
        table_foldl_none] at hfold
      cases hfold
    | arr l =>
      obtain ⟨md, flag⟩ := acc
      rw [show tableStep (some ((md, flag))) (Json.arr l) = none from rfl,
        table_foldl_none] at hfold
      cases hfold

/-! ### No-newline lemmas -/

theorem hasNL_eq_false_iff (s : String) : hasNL s = false ↔ ('\n' : Char) ∉ s.data := by
  simp [hasNL]

theorem jsonNoNL_scalar (s r : String) :
    jsonNoNL (Json.scalar s r) = (!hasNL s && !hasNL r) := by
  rw [jsonNoNL.eq_def]

theorem jsonNoNL_obj (fields : List (String × Json)) :
    jsonNoNL (Json.obj fields) = fieldsNoNL fields := by
  rw [jsonNoNL.eq_def]

theorem jsonNoNL_arr (items : List Json) :
    jsonNoNL (Json.arr items) = itemsNoNL items := by
  rw [jsonNoNL.eq_def]

theorem fieldsNoNL_cons (k : String) (v : Json) (rest : List (String × Json)) :
    fieldsNoNL ((k, v) :: rest) = (!hasNL k && (jsonNoNL v && fieldsNoNL rest)) := by
  rw [fieldsNoNL.eq_def]
  simp [Bool.and_assoc]

theorem itemsNoNL_cons (v : Json) (rest : List Json) :
    itemsNoNL (v :: rest) = (jsonNoNL v && itemsNoNL rest) := by
  rw [itemsNoNL.eq_def]

theorem fieldsNoNL_mem {f : List (String × Json)} (h : fieldsNoNL f = true) :
    ∀ kv ∈ f, hasNL kv.1 = false ∧ jsonNoNL kv.2 = true := by
  induction f with
  | nil => intro kv hkv; cases hkv
  | cons kv0 rest ih =>
    obtain ⟨k, v⟩ := kv0
    rw [fieldsNoNL_cons] at h
    simp only [Bool.and_eq_true, Bool.not_eq_true'] at h
    intro kv hkv
    rcases List.mem_cons.mp hkv with rfl | hmem
    · exact ⟨h.1, h.2.1⟩
    · exact ih h.2.2 kv hmem

theorem itemsNoNL_mem {items : List Json} (h : itemsNoNL items = true) :
    ∀ v ∈ items, jsonNoNL v = true := by
  induction items with
  | nil => intro v hv; cases hv
  | cons v0 rest ih =>
    rw [itemsNoNL_cons] at h
    simp only [Bool.and_eq_true] at h
    intro v hv
    rcases List.mem_cons.mp hv with rfl | hmem
    · exact h.1
    · exact ih h.2 v hmem

theorem cellStr_no_newline {v : Json} (h : jsonNoNL v = true) :
    ('\n' : Char) ∉ (cellStr v).data := by
  cases v with
  | scalar s r =>
    rw [jsonNoNL_scalar] at h
    simp only [Bool.and_eq_true, Bool.not_eq_true'] at h
    simpa [cellStr] using (hasNL_eq_false_iff s).mp h.1
  | obj fields => simp [cellStr]
  | arr items => simp [cellStr]

theorem joinSep_no_newline (sep : String) (parts : List String)
    (hsep : ('\n' : Char) ∉ sep.data) (h : ∀ p ∈ parts, ('\n' : Char) ∉ p.data) :
    ('\n' : Char) ∉ (joinSep sep parts).data := by
  induction parts with
  | nil => simp [joinSep]
  | cons p rest ih =>
    cases rest with
    | nil => simpa [joinSep] using h p (List.mem_cons_self p [])
    | cons q rest2 =>
      have hp := h p (List.mem_cons_self p _)
      have hrest : ∀ x ∈ q :: rest2, ('\n' : Char) ∉ x.data :=
        fun x hx => h x (List.mem_cons_of_mem _ hx)
      simp only [joinSep, String.data_append, List.mem_append]
      push_neg
      exact ⟨⟨hp, hsep⟩, ih hrest⟩

theorem headerCellsLine_no_newline {f : List (String × Json)} (h : fieldsNoNL f = true) :
    ('\n' : Char) ∉ (headerCellsLine f).data := by
  have hcells : ∀ p ∈ f.map Prod.fst, ('\n' : Char) ∉ p.data := by
    intro p hp
    obtain ⟨kv, hkv, rfl⟩ := List.mem_map.mp hp
    exact (hasNL_eq_false_iff _).mp (fieldsNoNL_mem h kv hkv).1
  have hj := joinSep_no_newline (" | ") (f.map Prod.fst) (by decide) hcells
  simp only [headerCellsLine, String.data_append, List.mem_append]
  push_neg
  refine ⟨⟨by decide, hj⟩, by decide⟩

theorem sepCellsLine_no_newline (f : List (String × Json)) :
    ('\n' : Char) ∉ (sepCellsLine f).data := by
  have hcells : ∀ p ∈ f.map (fun _ => ("---" : String)), ('\n' : Char) ∉ p.data := by
    intro p hp
    obtain ⟨kv, hkv, rfl⟩ := List.mem_map.mp hp
    decide
  have hj := joinSep_no_newline (" | ") (f.map fun _ => "---") (by decide) hcells
  simp only [sepCellsLine, String.data_append, List.mem_append]
  push_neg
  refine ⟨⟨by decide, hj⟩, by decide⟩

theorem rowCellsLine_no_newline {f : List (String × Json)} (h : fieldsNoNL f = true) :
    ('\n' : Char) ∉ (rowCellsLine f).data := by
  have hcells : ∀ p ∈ f.map (fun kv => cellStr kv.2), ('\n' : Char) ∉ p.data := by
    intro p hp
    obtain ⟨kv, hkv, rfl⟩ := List.mem_map.mp hp
    exact cellStr_no_newline (fieldsNoNL_mem h kv hkv).2
  have hj := joinSep_no_newline (" | ") (f.map fun kv => cellStr kv.2) (by decide) hcells
  simp only [rowCellsLine, String.data_append, List.mem_append]
  push_neg
  refine ⟨⟨by decide, hj⟩, by decide⟩

/-! ### Segment lemmas for rendered blocks -/

theorem sdata_nl : ("\n" : String).data = ['\n'] := rfl

theorem splitLines_segments :
    ∀ (segs : List (List Char)) (tail : List Char),
      (∀ a ∈ segs, ('\n' : Char) ∉ a) →
      splitLines (segs.foldr (fun a acc => a ++ '\n' :: acc) tail) =
        segs ++ splitLines tail := by
  intro segs
  induction segs with
  | nil => intro tail h; rfl
  | cons a rest ih =>
    intro tail h
    rw [List.foldr_cons,
      splitLines_append_newline _ _ (h a (List.mem_cons_self a rest)),
      ih tail (fun x hx => h x (List.mem_cons_of_mem _ hx))]
    rfl

theorem strConcat_rows_data (rows : List String) (tail : List Char) :
    (strConcat (rows.map fun r => r ++ "\n")).data ++ tail =
      (rows.map String.data).foldr (fun a acc => a ++ '\n' :: acc) tail := by
  induction rows with
  | nil => simp [strConcat]
  | cons r rest ih =>
    simp only [List.map_cons, strConcat, String.data_append, sdata_nl, List.foldr_cons]
    rw [← ih]
    simp [List.append_assoc]

theorem entry_splitLines (key : String) (value : Json) (e : String)
    (he : entryMd (key, value) = some e)
    (hk : hasNL key = false) (hv : jsonNoNL value = true)
    (ht : key = "title" → ∃ s r, value = Json.scalar s r) :
    ∀ tail, splitLines (e.data ++ tail) =
      (entryLines (key, value)).map String.data ++ splitLines tail := by
  intro tail
  by_cases hkey : key = "title"
  · obtain ⟨s, r, rfl⟩ := ht hkey
    subst hkey
    simp only [entryMd, reduceIte, pyStr, Option.some.injEq] at he
    subst he
    have hs : ('\n' : Char) ∉ s.data := by
      rw [jsonNoNL_scalar] at hv
      simp only [Bool.and_eq_true, Bool.not_eq_true'] at hv
      exact (hasNL_eq_false_iff s).mp hv.1
    have hsegs := splitLines_segments [("# " ++ s).data, []] tail
      (by
        intro a ha
        rcases List.mem_cons.mp ha with rfl | ha
        · simp only [String.data_append, List.mem_append]
          push_neg
          exact ⟨by decide, hs⟩
        · rcases List.mem_cons.mp ha with rfl | ha
          · simp
          · cases ha)
    simp only [List.foldr_cons, List.foldr_nil, List.nil_append] at hsegs
    rw [show (("# " ++ s ++ "\n") ++ "\n").data ++ tail =
        ("# " ++ s).data ++ '\n' :: ('\n' :: tail) from by
      simp [String.data_append, sdata_nl], hsegs]
    simp [entryLines, reduceIte, pyStr]
  · cases value with
    | scalar s r =>
      simp only [entryMd, if_neg hkey, Option.some.injEq] at he
      subst he
      have hs : ('\n' : Char) ∉ s.data := by
        rw [jsonNoNL_scalar] at hv
        simp only [Bool.and_eq_true, Bool.not_eq_true'] at hv
        exact (hasNL_eq_false_iff s).mp hv.1
      have hkd : ('\n' : Char) ∉ key.data := (hasNL_eq_false_iff key).mp hk
      have hsegs := splitLines_segments
        [("## " ++ key).data, [], (" " ++ s).data, []] tail
        (by
          intro a ha
          simp only [List.mem_cons, List.not_mem_nil, or_false] at ha
          rcases ha with rfl | rfl | rfl | rfl
          · simp only [String.data_append, List.mem_append]
            push_neg
            exact ⟨by decide, hkd⟩
          · simp
          · simp only [String.data_append, List.mem_append]
            push_neg
            exact ⟨by decide, hs⟩
          · simp)
      simp only [List.foldr_cons, List.foldr_nil, List.nil_append] at hsegs
      rw [show (((("## " ++ key ++ "\n") ++ "\n") ++ (" " ++ s ++ "\n")) ++ "\n").data ++ tail =
          ("## " ++ key).data ++ '\n' :: ('\n' :: ((" " ++ s).data ++ '\n' :: ('\n' :: tail)))
        from by simp [String.data_append, sdata_nl], hsegs]
      simp [entryLines, if_neg hkey]
    | obj fields =>
      simp only [entryMd, if_neg hkey] at he
      cases hf : jmGo fields ("") with
      | none => rw [hf] at he; cases he
      | some m =>
        rw [hf] at he
        simp only [Option.map_some', Option.some.injEq] at he
        subst he
        rw [show ("\n" : String).data ++ tail = '\n' :: tail from by simp [sdata_nl],
          splitLines_newline]
        simp [entryLines, if_neg hkey]
    | arr items =>
      simp only [entryMd, if_neg hkey] at he
      cases htab : json_to_markdown_table items with
      | none => rw [htab] at he; cases he
      | some t =>
        rw [htab] at he
        simp only [Option.map_some', Option.some.injEq] at he
        subst he
        have hkd : ('\n' : Char) ∉ key.data := (hasNL_eq_false_iff key).mp hk
        have hhead : ('\n' : Char) ∉ (("## " ++ key).data) := by
          simp only [String.data_append, List.mem_append]
          push_neg
          exact ⟨by decide, hkd⟩
        cases items with
        | nil =>
          have ht0 : t = "" := by
            rw [table_nil] at htab
            exact (Option.some.inj htab).symm
          subst ht0
          have hsegs := splitLines_segments [("## " ++ key).data, [], []] tail
            (by
              intro a ha
              simp only [List.mem_cons, List.not_mem_nil, or_false] at ha
              rcases ha with rfl | rfl | rfl
              · exact hhead
              · simp
              · simp)
          simp only [List.foldr_cons, List.foldr_nil, List.nil_append] at hsegs
          rw [show (((("## " ++ key ++ "\n") ++ "\n") ++ "") ++ "\n").data ++ tail =
              ("## " ++ key).data ++ '\n' :: ('\n' :: ('\n' :: tail))
            from by simp [String.data_append, sdata_nl], hsegs]
          simp [entryLines, if_neg hkey, tableLines]
        | cons e0 restItems =>
          cases hres : (e0 :: restItems).foldl tableStep (some (("", false))) with
          | none =>
            rw [json_to_markdown_table, hres] at htab
            cases htab
          | some p =>
            have hall := table_ok_all_obj (e0 :: restItems) _ _ hres
            obtain ⟨f0, rfl⟩ := hall e0 (List.mem_cons_self e0 restItems)
            have hrest : ∀ x ∈ restItems, ∃ f, x = Json.obj f :=
              fun x hx => hall x (List.mem_cons_of_mem _ hx)
            rw [table_all_obj f0 restItems hrest] at htab
            have ht0 : t = (((headerCellsLine f0 ++ "\n") ++ (sepCellsLine f0 ++ "\n")) ++
                (rowCellsLine f0 ++ "\n")) ++
                strConcat (restItems.map fun x => rowCellsLine (objFields x) ++ "\n") :=
              (Option.some.inj htab).symm
            subst ht0
            have hfnl : fieldsNoNL f0 = true ∧ ∀ x ∈ restItems, jsonNoNL x = true := by
              rw [jsonNoNL_arr] at hv
              have hmem := itemsNoNL_mem hv
              refine ⟨?_, fun x hx => hmem x (List.mem_cons_of_mem _ hx)⟩
              have h0 := hmem (Json.obj f0) (List.mem_cons_self _ _)
              rwa [jsonNoNL_obj] at h0
            have hrowsAll : ∀ r ∈ (Json.obj f0 :: restItems).map
                (fun x => rowCellsLine (objFields x)), ('\n' : Char) ∉ r.data := by
              intro r hr
              obtain ⟨x, hx, rfl⟩ := List.mem_map.mp hr
              rcases List.mem_cons.mp hx with rfl | hx2
              · exact rowCellsLine_no_newline (by simpa [objFields] using hfnl.1)
              · obtain ⟨f, rfl⟩ := hrest x hx2
                have := hfnl.2 _ hx2
                rw [jsonNoNL_obj] at this
                exact rowCellsLine_no_newline (by simpa [objFields] using this)
            have harg : ((((("## " ++ key ++ "\n") ++ "\n") ++
                ((((headerCellsLine f0 ++ "\n") ++ (sepCellsLine f0 ++ "\n")) ++
                  (rowCellsLine f0 ++ "\n")) ++
                  strConcat (restItems.map fun x => rowCellsLine (objFields x) ++ "\n"))) ++
                "\n") : String).data ++ tail =
                ("## " ++ key).data ++ '\n' :: ('\n' ::
                  ((headerCellsLine f0).data ++ '\n' :: ((sepCellsLine f0).data ++ '\n' ::
                    ((strConcat (((Json.obj f0 :: restItems).map
                      (fun x => rowCellsLine (objFields x))).map
                        fun r => r ++ "\n")).data ++ ('\n' :: tail))))) := by
              simp [String.data_append, sdata_nl, List.append_assoc, strConcat, objFields,
                List.map_map, Function.comp_def]
            rw [harg, splitLines_append_newline _ _ hhead, splitLines_newline,
              splitLines_append_newline _ _ (headerCellsLine_no_newline hfnl.1),
              splitLines_append_newline _ _ (sepCellsLine_no_newline f0),
              strConcat_rows_data, splitLines_segments _ _
                (by
                  intro a ha
                  obtain ⟨r, hr, rfl⟩ := List.mem_map.mp ha
                  exact hrowsAll r hr),
              splitLines_newline]
            simp [entryLines, if_neg hkey, tableLines, objFields]

theorem jtm_splitLines :
    ∀ (doc : List (String × Json)) (out : String),
      json_to_markdown doc = some out →
      fieldsNoNL doc = true →
      (∀ kv ∈ doc, kv.1 = "title" → ∃ s r, kv.2 = Json.scalar s r) →
      splitLines out.data = (doc.flatMap entryLines).map String.data ++ [[]] := by
  intro doc
  induction doc with
  | nil =>
    intro out hout _ _
    rw [json_to_markdown, jmGo_nil] at hout
    have : out = "" := (Option.some.inj hout).symm
    subst this
    rfl
  | cons kv rest ih =>
    intro out hout hn ht
    rw [jtm_cons] at hout
    cases he : entryMd kv with
    | none => rw [he] at hout; cases hout
    | some e =>
      rw [he] at hout
      cases hm : json_to_markdown rest with
      | none => rw [hm] at hout; cases hout
      | some m =>
        rw [hm] at hout
        simp only [Option.bind, Option.map_some', Option.some.injEq] at hout
        subst hout
        obtain ⟨key, value⟩ := kv
        rw [fieldsNoNL_cons] at hn
        simp only [Bool.and_eq_true, Bool.not_eq_true'] at hn
        rw [String.data_append,
          entry_splitLines key value e he hn.1 hn.2.1
            (ht (key, value) (List.mem_cons_self _ _)) m.data,
          ih m hm hn.2.2 (fun x hx => ht x (List.mem_cons_of_mem _ hx)),
          List.flatMap_cons]
        simp [List.append_assoc]

/-! ### Claim theorems -/

/-- C1: for every key of the structured document other than `"title"` whose
value is a sequence of uniform mappings (all elements dicts with the first
element's keys in the first element's key order), the renderer emits
`## <key>` and then a markdown table whose header row (`headerCellsLine f0`)
is built from the keys of the first sequence element in that element's key
order, and in which each subsequent sequence element `f ∈ restF` becomes
exactly one data row `rowCellsLine f` (the first element also yields the
first data row).  The surrounding document renders before and after it
unchanged. -/
theorem c1_table_sections (pre post : List (String × Json)) (k : String)
    (f0 : List (String × Json)) (restF : List (List (String × Json)))
    (hk : k ≠ "title")
    (huni : ∀ f ∈ restF, f.map Prod.fst = f0.map Prod.fst) :
    json_to_markdown (pre ++ (k, Json.arr (Json.obj f0 :: restF.map Json.obj)) :: post) =
      (json_to_markdown pre).bind fun mp =>
        (json_to_markdown post).map fun mq =>
          mp ++ (((("## " ++ k ++ "\n") ++ "\n") ++
            (((headerCellsLine f0 ++ "\n") ++ (sepCellsLine f0 ++ "\n")) ++
              ((rowCellsLine f0 ++ "\n") ++
                strConcat (restF.map fun f => rowCellsLine f ++ "\n")))) ++ "\n") ++ mq := by
  simp only [json_to_markdown]
  rw [jmGo_append]
  have hrest : ∀ e ∈ restF.map Json.obj, ∃ f, e = Json.obj f := by
    intro e he
    obtain ⟨f, hf, rfl⟩ := List.mem_map.mp he
    exact ⟨f, rfl⟩
  cases hp : jmGo pre ("") with
  | none => rfl
  | some mp =>
    simp only [Option.bind]
    rw [jmGo_arr k hk, table_all_obj f0 _ hrest]
    dsimp only
    rw [jmGo_acc post]
    cases jmGo post ("") <;>
      simp [String.append_assoc, List.map_map, Function.comp_def, objFields]

/-- Witness for C1 at a concrete two-element uniform table. -/
theorem c1_table_sections_witness :
    json_to_markdown [("items", Json.arr
      [Json.obj [("a", Json.scalar ("1") ("1"))],
       Json.obj [("a", Json.scalar ("2") ("2"))]])] =
      some ("## items\n\n| a |\n| --- |\n| 1 |\n| 2 |\n\n") := by
  have h := c1_table_sections [] [] ("items") [("a", Json.scalar ("1") ("1"))]
    [[("a", Json.scalar ("2") ("2"))]] (by decide)
    (by intro f hf; simp only [List.mem_singleton] at hf; subst hf; rfl)
  simpa [json_to_markdown, jmGo_nil, headerCellsLine, sepCellsLine, rowCellsLine,
    strConcat, joinSep, cellStr] using h

/-- C4: for every key of the structured document other than `"title"` whose
value is a nested mapping, the renderer traverses the nested mapping
recursively (its conversion must succeed, and nothing else of it is used) but
appends none of its rendered text to the parent document: the key contributes
exactly one blank line (`"\n"`) to the output. -/
theorem c4_nested_mapping_discarded (pre post fields : List (String × Json)) (k : String)
    (hk : k ≠ "title") :
    json_to_markdown (pre ++ (k, Json.obj fields) :: post) =
      (json_to_markdown fields).bind fun _ =>
        (json_to_markdown pre).bind fun mp =>
          (json_to_markdown post).map fun mq => (mp ++ "\n") ++ mq := by
  simp only [json_to_markdown]
  rw [jmGo_append]
  cases hf : jmGo fields ("") with
  | none =>
    cases hp : jmGo pre ("") with
    | none => rfl
    | some mp =>
      simp only [Option.bind]
      rw [jmGo_obj k hk, hf]
  | some m =>
    cases hp : jmGo pre ("") with
    | none => rfl
    | some mp =>
      simp only [Option.bind]
      rw [jmGo_obj k hk, hf]
      dsimp only
      rw [jmGo_acc post]

/-- Witness for C4: a nested mapping key renders as a single blank line. -/
theorem c4_nested_mapping_discarded_witness :
    json_to_markdown [("x", Json.scalar ("1") ("1")),
      ("nested", Json.obj [("inner", Json.scalar ("v") ("v"))])] =
      some ("## x\n\n 1\n\n\n") := by
  have h := c4_nested_mapping_discarded [("x", Json.scalar ("1") ("1"))] []
    [("inner", Json.scalar ("v") ("v"))] ("nested") (by decide)
  simpa [json_to_markdown, jmGo, joinSep] using h

/-- C10: the table conversion of an empty sequence produces the empty string
(no header row, no separator row, no data rows), so a non-`"title"` key whose
value is an empty sequence contributes only the `## <key>` heading followed
by blank lines. -/
theorem c10_empty_sequence (pre post : List (String × Json)) (k : String)
    (hk : k ≠ "title") :
    json_to_markdown_table [] = some ("") ∧
    json_to_markdown (pre ++ (k, Json.arr []) :: post) =
      (json_to_markdown pre).bind fun mp =>
        (json_to_markdown post).map fun mq =>
          mp ++ (((("## " ++ k ++ "\n") ++ "\n") ++ ("")) ++ "\n") ++ mq := by
  refine ⟨rfl, ?_⟩
  simp only [json_to_markdown]
  rw [jmGo_append]
  cases hp : jmGo pre ("") with
  | none => rfl
  | some mp =>
    simp only [Option.bind]
    rw [jmGo_arr k hk, table_nil]
    dsimp only
    rw [jmGo_acc post]
    cases jmGo post ("") <;> simp [String.append_assoc]

/-- Witness for C10: an empty sequence under a key yields the heading and
blank lines only. -/
theorem c10_empty_sequence_witness :
    json_to_markdown_table [] = some ("") ∧
    json_to_markdown [("empty", Json.arr [])] = some ("## empty\n\n\n") := by
  have h := c10_empty_sequence [] [] ("empty") (by decide)
  refine ⟨h.1, ?_⟩
  have h2 := h.2
  simpa [json_to_markdown, jmGo_nil] using h2

/-- C5: for a sequence-valued key with value
`[{"a":1,"b":2},{"a":3,"b":4}]`, the renderer emits exactly the header
`| a | b |`, the separator `| --- | --- |`, then the data rows `| 1 | 2 |`
and `| 3 | 4 |`, in that order; and every table cell whose value is itself a
mapping or sequence is rendered as the literal text `...`. -/
theorem c5_table_example :
    json_to_markdown [("data", Json.arr
      [Json.obj [("a", Json.scalar ("1") ("1")), ("b", Json.scalar ("2") ("2"))],
       Json.obj [("a", Json.scalar ("3") ("3")), ("b", Json.scalar ("4") ("4"))]])] =
      some ("## data\n\n| a | b |\n| --- | --- |\n| 1 | 2 |\n| 3 | 4 |\n\n") ∧
    (∀ f, cellStr (Json.obj f) = "...") ∧ (∀ l, cellStr (Json.arr l) = "...") := by
  refine ⟨?_, fun f => rfl, fun l => rfl⟩
  simp [json_to_markdown, jmGo, json_to_markdown_table, tableStep, joinSep, cellStr]

/-! ### Helpers for comparing rendered lines -/

theorem string_mk_data (s : String) : String.mk s.data = s := rfl

theorem sdata_hash2 : ("## " : String).data = ['#', '#', ' '] := rfl

theorem sdata_hash1 : ("# " : String).data = ['#', ' '] := rfl

theorem sdata_space : (" " : String).data = [' '] := rfl

theorem sdata_pipe : ("| " : String).data = ['|', ' '] := rfl

theorem sdata_empty : ("" : String).data = [] := rfl

theorem append_left_inj_str (p a b : String) : (p ++ a) = (p ++ b) ↔ a = b := by
  constructor
  · intro h
    have hd := congrArg String.data h
    simp only [String.data_append] at hd
    have hd2 := List.append_cancel_left hd
    cases a
    cases b
    exact congrArg String.mk (by simpa using hd2)
  · intro h
    rw [h]

theorem blank_ne_heading (k : String) : ("" : String) ≠ ("## " ++ k) := by
  intro h
  have hd := congrArg String.data h
  simp only [String.data_append, sdata_hash2, sdata_empty] at hd
  cases hd

theorem scalar_line_ne_heading (s k : String) : (" " ++ s) ≠ ("## " ++ k) := by
  intro h
  have hd := congrArg String.data h
  simp only [String.data_append, sdata_hash2, sdata_space] at hd
  simp at hd

theorem isH1Line_heading2 (k : String) : isH1Line ("## " ++ k) = false := by
  have hd : ("## " ++ k).data = '#' :: '#' :: ' ' :: k.data := by
    simp [String.data_append, sdata_hash2]
  simp [isH1Line, hd]

theorem isH1Line_heading1 (s : String) : isH1Line ("# " ++ s) = true := by
  have hd : ("# " ++ s).data = '#' :: ' ' :: s.data := by
    simp [String.data_append, sdata_hash1]
  simp [isH1Line, hd]

theorem isH1Line_blank : isH1Line ("") = false := rfl

theorem isH1Line_scalar_line (s : String) : isH1Line (" " ++ s) = false := by
  have hd : (" " ++ s).data = ' ' :: s.data := by
    simp [String.data_append, sdata_space]
  cases hs : s.data with
  | nil => simp [isH1Line, hd, hs]
  | cons c rest => simp [isH1Line, hd, hs]

theorem isH1Line_pipe_line (s : String) : isH1Line ("| " ++ s) = false := by
  have hd : ("| " ++ s).data = '|' :: ' ' :: s.data := by
    simp [String.data_append, sdata_pipe]
  simp [isH1Line, hd]

/-- Helper: a list-valued flatMap congruence under a pointwise hypothesis. -/
theorem listFlatMapCongr {α β : Type} {l : List α} {f g : α → List β}
    (h : ∀ x ∈ l, f x = g x) : l.flatMap f = l.flatMap g := by
  induction l with
  | nil => rfl
  | cons x rest ih =>
    rw [List.flatMap_cons, List.flatMap_cons, h x (List.mem_cons_self x rest),
      ih (fun y hy => h y (List.mem_cons_of_mem _ hy))]

/-- Helper: counting `## <k>` heading lines across the rendered blocks of a
scalar-only document counts the occurrences of `k` among the keys. -/
theorem count_heading_flat (doc : List (String × Json)) (k : String)
    (hscalar : ∀ kv ∈ doc, kv.1 ≠ "title" ∧ ∃ s r, kv.2 = Json.scalar s r) :
    ((doc.flatMap fun kv => ["## " ++ kv.1, "", " " ++ cellStr kv.2, ""]).count
        ("## " ++ k)) = (doc.map Prod.fst).count k := by
  induction doc with
  | nil => rfl
  | cons kv rest ih =>
    obtain ⟨k1, v1⟩ := kv
    rw [List.flatMap_cons, List.map_cons, List.count_append]
    have hblock : (["## " ++ k1, "", " " ++ cellStr v1, ""]).count ("## " ++ k) =
        if k1 = k then 1 else 0 := by
      by_cases hkk : k1 = k
      · subst hkk
        simp [List.count_cons, blank_ne_heading, scalar_line_ne_heading]
      · have hne : ("## " ++ k1) ≠ ("## " ++ k) :=
          fun hcontra => hkk ((append_left_inj_str _ _ _).mp hcontra)
        simp [List.count_cons, blank_ne_heading, scalar_line_ne_heading, hne, hkk]
    rw [hblock, ih (fun x hx => hscalar x (List.mem_cons_of_mem _ hx)), List.count_cons]
    by_cases hkk : k1 = k <;> simp [hkk, Nat.add_comm]

/-- C2 counterexample: the claim "exactly one `## <key>` heading per key" is
false as stated, because a scalar whose string form contains a newline
injects extra lines: for the document `{"x": "y\n## x"}` the rendered output
contains the line `## x` twice. -/
theorem c2_counterexample :
    (json_to_markdown [("x", Json.scalar ("y\n## x") ("\x27y\\n## x\x27"))]).map
      (fun out => (linesOf out).count ("## x")) = some (2) := by
  have hout : json_to_markdown [("x", Json.scalar ("y\n## x") ("\x27y\\n## x\x27"))] =
      some ("## x\n\n y\n## x\n\n") := by
    simp [json_to_markdown, jmGo]
  rw [hout]
  decide

/-- C2 (amended): for every structured document whose keys all map to scalar
values, with no `"title"` key, unique keys, and no newline characters in keys
or scalar string forms, the rendered lines are exactly, per key in insertion
order: `## <key>`, a blank line, a line equal to one space plus the scalar's
string form (`cellStr`), and a blank separator line — followed by one final
empty line; in particular each key's `## <key>` heading occurs exactly
once. -/
theorem c2_scalar_sections (doc : List (String × Json)) (out : String)
    (hscalar : ∀ kv ∈ doc, kv.1 ≠ "title" ∧ ∃ s r, kv.2 = Json.scalar s r)
    (hn : fieldsNoNL doc = true)
    (hnd : (doc.map Prod.fst).Nodup)
    (h : json_to_markdown doc = some out) :
    linesOf out =
      (doc.flatMap fun kv => ["## " ++ kv.1, "", " " ++ cellStr kv.2, ""]) ++ [""] ∧
    ∀ k ∈ doc.map Prod.fst, (linesOf out).count ("## " ++ k) = 1 := by
  have hmaster := jtm_splitLines doc out h hn
    (fun kv hkv hti => absurd hti (hscalar kv hkv).1)
  have hentry : ∀ kv ∈ doc, entryLines kv = ["## " ++ kv.1, "", " " ++ cellStr kv.2, ""] := by
    intro kv hkv
    obtain ⟨hkt, s, r, hv⟩ := hscalar kv hkv
    obtain ⟨k1, v1⟩ := kv
    simp only at hv
    subst hv
    simp [entryLines, if_neg hkt, cellStr]
  have hlines : linesOf out =
      (doc.flatMap fun kv => ["## " ++ kv.1, "", " " ++ cellStr kv.2, ""]) ++ [""] := by
    rw [linesOf, hmaster, listFlatMapCongr hentry]
    rw [List.map_append, List.map_map]
    simp [string_mk_data, Function.comp_def]
  refine ⟨hlines, ?_⟩
  intro k hkmem
  rw [hlines, List.count_append, count_heading_flat doc k hscalar]
  have hone : (doc.map Prod.fst).count k = 1 := List.count_eq_one_of_mem hnd hkmem
  rw [hone]
  have hz : ([""] : List String).count ("## " ++ k) = 0 := by
    simp [List.count_cons, blank_ne_heading k]
  rw [hz]

/-- Witness for C2 at a concrete scalar-only document. -/
theorem c2_scalar_sections_witness :
    linesOf ("## desc\n\n hello\n\n## num\n\n 7\n\n") =
      ["## desc", "", " hello", "", "## num", "", " 7", "", ""] ∧
    (linesOf ("## desc\n\n hello\n\n## num\n\n 7\n\n")).count ("## desc") = 1 := by
  have hdoc : json_to_markdown [("desc", Json.scalar ("hello") ("\x27hello\x27")),
      ("num", Json.scalar ("7") ("7"))] = some ("## desc\n\n hello\n\n## num\n\n 7\n\n") := by
    simp [json_to_markdown, jmGo]
  have h := c2_scalar_sections [("desc", Json.scalar ("hello") ("\x27hello\x27")),
      ("num", Json.scalar ("7") ("7"))] ("## desc\n\n hello\n\n## num\n\n 7\n\n")
    (by
      intro kv hkv
      rcases List.mem_cons.mp hkv with rfl | hkv2
      · exact ⟨by decide, ("hello"), ("\x27hello\x27"), rfl⟩
      · rcases List.mem_cons.mp hkv2 with rfl | hkv3
        · exact ⟨by decide, ("7"), ("7"), rfl⟩
        · cases hkv3)
    (by
      rw [fieldsNoNL_cons, fieldsNoNL_cons, jsonNoNL_scalar, jsonNoNL_scalar]
      decide)
    (by decide)
    hdoc
  refine ⟨?_, ?_⟩
  · have h1 := h.1
    simpa using h1
  · have h2 := h.2 ("desc") (by decide)
    simpa using h2

theorem pipe_line_ne (a b t : String) : (("| " ++ a) ++ b) ≠ ("## " ++ t) := by
  intro h
  have hd := congrArg String.data h
  simp [String.data_append, sdata_hash2, sdata_pipe] at hd

theorem h1_ne_heading2 (v t : String) : ("# " ++ v) ≠ ("## " ++ t) := by
  intro h
  have hd := congrArg String.data h
  simp [String.data_append, sdata_hash2, sdata_hash1] at hd

theorem isH1Line_pipe_assoc (a b : String) : isH1Line (("| " ++ a) ++ b) = false := by
  have hd : (("| " ++ a) ++ b).data = '|' :: ' ' :: (a.data ++ b.data) := by
    simp [String.data_append, sdata_pipe]
  simp [isH1Line, hd]

/-- Helper: every line of a rendered table is blank or starts with a pipe. -/
theorem tableLines_cases (items : List Json) (l : String) (hl : l ∈ tableLines items) :
    l = ("") ∨ ∃ a b : String, l = ("| " ++ a) ++ b := by
  cases items with
  | nil =>
    rcases List.mem_singleton.mp hl with rfl
    exact Or.inl rfl
  | cons e0 restItems =>
    rw [tableLines] at hl
    rcases List.mem_cons.mp hl with rfl | hl2
    · exact Or.inr ⟨joinSep (" | ") ((objFields e0).map Prod.fst), " |",
        by simp [headerCellsLine, String.append_assoc]⟩
    rcases List.mem_cons.mp hl2 with rfl | hl3
    · exact Or.inr ⟨joinSep (" | ") ((objFields e0).map fun _ => "---"), " |",
        by simp [sepCellsLine, String.append_assoc]⟩
    rcases List.mem_append.mp hl3 with hl4 | hl5
    · obtain ⟨x, hx, rfl⟩ := List.mem_map.mp hl4
      exact Or.inr ⟨joinSep (" | ") ((objFields x).map fun kv => cellStr kv.2), " |",
        by simp [rowCellsLine, String.append_assoc]⟩
    · rcases List.mem_singleton.mp hl5 with rfl
      exact Or.inl rfl

/-- Helper: the lines contributed by a non-`"title"` key contain no H1 line. -/
theorem entryLines_no_H1 (kv : String × Json) (hk : kv.1 ≠ "title") :
    ∀ l ∈ entryLines kv, isH1Line l = false := by
  obtain ⟨k, v⟩ := kv
  simp only at hk
  intro l hl
  cases v with
  | scalar s r =>
    simp only [entryLines, if_neg hk, List.mem_cons, List.not_mem_nil, or_false] at hl
    rcases hl with rfl | rfl | rfl | rfl
    · exact isH1Line_heading2 k
    · exact isH1Line_blank
    · exact isH1Line_scalar_line s
    · exact isH1Line_blank
  | obj fields =>
    simp only [entryLines, if_neg hk, List.mem_cons, List.not_mem_nil, or_false] at hl
    rcases hl with rfl
    exact isH1Line_blank
  | arr items =>
    simp only [entryLines, if_neg hk] at hl
    rcases List.mem_cons.mp hl with rfl | hl2
    · exact isH1Line_heading2 k
    rcases List.mem_cons.mp hl2 with rfl | hl3
    · exact isH1Line_blank
    rcases tableLines_cases items l hl3 with rfl | ⟨a, b, rfl⟩
    · exact isH1Line_blank
    · exact isH1Line_pipe_assoc a b

/-- Helper: the lines contributed by a non-`"title"` key never equal
`## title`. -/
theorem entryLines_ne_title_heading (kv : String × Json) (hk : kv.1 ≠ "title") :
    ∀ l ∈ entryLines kv, l ≠ ("## title") := by
  obtain ⟨k, v⟩ := kv
  simp only at hk
  have htitle : ("## title" : String) = ("## " ++ "title") := rfl
  intro l hl
  cases v with
  | scalar s r =>
    simp only [entryLines, if_neg hk, List.mem_cons, List.not_mem_nil, or_false] at hl
    rcases hl with rfl | rfl | rfl | rfl
    · rw [htitle]
      exact fun hc => hk ((append_left_inj_str _ _ _).mp hc)
    · rw [htitle]; exact blank_ne_heading _
    · rw [htitle]; exact scalar_line_ne_heading _ _
    · rw [htitle]; exact blank_ne_heading _
  | obj fields =>
    simp only [entryLines, if_neg hk, List.mem_cons, List.not_mem_nil, or_false] at hl
    rcases hl with rfl
    rw [htitle]; exact blank_ne_heading _
  | arr items =>
    simp only [entryLines, if_neg hk] at hl
    rcases List.mem_cons.mp hl with rfl | hl2
    · rw [htitle]
      exact fun hc => hk ((append_left_inj_str _ _ _).mp hc)
    rcases List.mem_cons.mp hl2 with rfl | hl3
    · rw [htitle]; exact blank_ne_heading _
    rcases tableLines_cases items l hl3 with rfl | ⟨a, b, rfl⟩
    · rw [htitle]; exact blank_ne_heading _
    · rw [htitle]; exact pipe_line_ne a b _

/-- Helper: no H1 line occurs among the blocks of non-`"title"` keys. -/
theorem countP_H1_flat_zero (doc : List (String × Json))
    (h : ∀ kv ∈ doc, kv.1 ≠ "title") :
    (doc.flatMap entryLines).countP isH1Line = 0 := by
  induction doc with
  | nil => rfl
  | cons kv rest ih =>
    rw [List.flatMap_cons, List.countP_append,
      ih (fun x hx => h x (List.mem_cons_of_mem _ hx))]
    have hz : (entryLines kv).countP isH1Line = 0 := by
      rw [List.countP_eq_zero]
      intro l hl
      simp [entryLines_no_H1 kv (h kv (List.mem_cons_self _ _)) l hl]
    rw [hz]

/-- C6 counterexample: the claim is false as stated.  For the document
`{"x": "a\n# b", "title": "Foo"}` (which contains the key `"title"`), the
first line of the output is `## x`, not `# Foo`, and the output contains two
H1 lines (the scalar's embedded `# b` and the title's `# Foo`), so `# Foo`
is not the sole H1. -/
theorem c6_counterexample :
    (json_to_markdown [("x", Json.scalar ("a\n# b") ("\x27a\\n# b\x27")),
      ("title", Json.scalar ("Foo") ("\x27Foo\x27"))]).map
      (fun out => ((linesOf out).head?, (linesOf out).countP isH1Line)) =
      some ((some ("## x"), 2)) := by
  have hout : json_to_markdown [("x", Json.scalar ("a\n# b") ("\x27a\\n# b\x27")),
      ("title", Json.scalar ("Foo") ("\x27Foo\x27"))] =
      some ("## x\n\n a\n# b\n\n# Foo\n\n") := by
    simp [json_to_markdown, jmGo, pyStr]
  rw [hout]
  decide

/-- C6 (amended): for every structured document whose *first* key is
`"title"` with a scalar value, whose other keys are not `"title"`, and whose
keys and scalar string forms contain no newline, the renderer emits
`# <value>` as the first line of the output, that line is the document's sole
H1 line, and no `## title` section heading is emitted. -/
theorem c6_title_heading (v rv : String) (rest : List (String × Json)) (out : String)
    (hn : fieldsNoNL (("title", Json.scalar v rv) :: rest) = true)
    (hrest : ∀ kv ∈ rest, kv.1 ≠ "title")
    (h : json_to_markdown (("title", Json.scalar v rv) :: rest) = some out) :
    (linesOf out).head? = some ("# " ++ v) ∧
    (linesOf out).countP isH1Line = 1 ∧
    ("## title") ∉ linesOf out := by
  have hmaster := jtm_splitLines (("title", Json.scalar v rv) :: rest) out h hn
    (by
      intro kv hkv hti
      rcases List.mem_cons.mp hkv with rfl | hkv2
      · exact ⟨v, rv, rfl⟩
      · exact absurd hti (hrest kv hkv2))
  have hlines : linesOf out =
      (["# " ++ v, ""] ++ rest.flatMap entryLines) ++ [""] := by
    rw [linesOf, hmaster, List.flatMap_cons]
    rw [show entryLines ("title", Json.scalar v rv) = ["# " ++ v, ""] from by
      simp [entryLines, pyStr]]
    rw [List.map_append, List.map_map]
    simp [string_mk_data, Function.comp_def]
  refine ⟨?_, ?_, ?_⟩
  · rw [hlines]
    rfl
  · rw [hlines, List.countP_append, List.countP_append]
    rw [countP_H1_flat_zero rest hrest]
    simp [List.countP_cons, isH1Line_heading1, isH1Line_blank]
  · rw [hlines]
    intro hmem
    rcases List.mem_append.mp hmem with hmem2 | hmem3
    · rcases List.mem_append.mp hmem2 with hmem4 | hmem5
      · rcases List.mem_cons.mp hmem4 with heq | hmem6
        · exact h1_ne_heading2 v ("title") (by rw [← heq]; rfl)
        · rcases List.mem_singleton.mp hmem6 with heq
          exact blank_ne_heading ("title") (by rw [← heq]; rfl)
      · obtain ⟨kv, hkv, hent⟩ := List.mem_flatMap.mp hmem5
        exact entryLines_ne_title_heading kv (hrest kv hkv) _ hent rfl
    · rcases List.mem_singleton.mp hmem3 with heq
      exact blank_ne_heading ("title")
        (heq.symm.trans (show ("## title" : String) = "## " ++ "title" from rfl))

/-- Witness for C6 at a concrete document whose first key is the title. -/
theorem c6_title_heading_witness :
    (linesOf ("# Foo\n\n## desc\n\n hi\n\n")).head? = some ("# Foo") ∧
    (linesOf ("# Foo\n\n## desc\n\n hi\n\n")).countP isH1Line = 1 ∧
    ("## title") ∉ linesOf ("# Foo\n\n## desc\n\n hi\n\n") := by
  have hdoc : json_to_markdown [("title", Json.scalar ("Foo") ("\x27Foo\x27")),
      ("desc", Json.scalar ("hi") ("\x27hi\x27"))] =
      some ("# Foo\n\n## desc\n\n hi\n\n") := by
    simp [json_to_markdown, jmGo, pyStr]
  have h := c6_title_heading ("Foo") ("\x27Foo\x27")
    [("desc", Json.scalar ("hi") ("\x27hi\x27"))] ("# Foo\n\n## desc\n\n hi\n\n")
    (by
      rw [fieldsNoNL_cons, fieldsNoNL_cons, jsonNoNL_scalar, jsonNoNL_scalar]
      decide)
    (by
      intro kv hkv
      rcases List.mem_singleton.mp hkv with rfl
      decide)
    hdoc
  simpa using h

/-! ### Branch name lemmas -/

theorem digitVal_digitChar : ∀ d, d < 10 → digitVal (digitChar d) = d := by decide

theorem toDecGo_acc (fuel : Nat) :
    ∀ (n : Nat) (acc : List Char), toDecGo fuel n acc = toDecGo fuel n [] ++ acc := by
  induction fuel with
  | zero => intro n acc; rfl
  | succ fuel ih =>
    intro n acc
    by_cases hn : n < 10
    · simp [toDecGo, hn]
    · rw [toDecGo, toDecGo, if_neg hn, if_neg hn, ih (n / 10), ih (n / 10) [digitChar (n % 10)]]
      simp

theorem toDecGo_val (fuel : Nat) :
    ∀ n, n < 10 ^ (fuel + 1) →
      decVal (toDecGo (fuel + 1) n []) = n ∧ toDecGo (fuel + 1) n [] ≠ [] := by
  induction fuel with
  | zero =>
    intro n hn
    have h10 : n < 10 := by simpa using hn
    rw [toDecGo, if_pos h10]
    exact ⟨by simp [decVal, digitVal_digitChar n h10], by simp⟩
  | succ fuel ih =>
    intro n hn
    by_cases h10 : n < 10
    · rw [toDecGo, if_pos h10]
      exact ⟨by simp [decVal, digitVal_digitChar n h10], by simp⟩
    · rw [toDecGo, if_neg h10, toDecGo_acc]
      have hdiv : n / 10 < 10 ^ (fuel + 1) := by
        rw [Nat.div_lt_iff_lt_mul (by norm_num : (0:Nat) < 10)]
        calc n < 10 ^ (fuel + 1 + 1) := hn
        _ = 10 ^ (fuel + 1) * 10 := by rw [pow_succ]
      obtain ⟨hval, hne⟩ := ih (n / 10) hdiv
      constructor
      · rw [decVal, List.foldl_append]
        have hm : n % 10 < 10 := Nat.mod_lt n (by norm_num)
        rw [show List.foldl (fun a c => 10 * a + digitVal c) 0 (toDecGo (fuel + 1) (n / 10) []) =
          decVal (toDecGo (fuel + 1) (n / 10) []) from rfl, hval]
        simp [digitVal_digitChar _ hm]
        have := Nat.div_add_mod n 10
        omega
      · simp

theorem natToDec_inj (m n : Nat) (h : natToDec m = natToDec n) : m = n := by
  have hm : m < 10 ^ (m + 1) :=
    lt_of_lt_of_le (Nat.lt_pow_self (by norm_num) m)
      (Nat.pow_le_pow_right (by norm_num) (Nat.le_succ m))
  have hn : n < 10 ^ (n + 1) :=
    lt_of_lt_of_le (Nat.lt_pow_self (by norm_num) n)
      (Nat.pow_le_pow_right (by norm_num) (Nat.le_succ n))
  have hd : toDecGo (m + 1) m [] = toDecGo (n + 1) n [] := congrArg String.data h
  have hvm := (toDecGo_val m m hm).1
  have hvn := (toDecGo_val n n hn).1
  rw [hd, hvn] at hvm
  exact hvm.symm

theorem natToDec_ne_empty (n : Nat) : natToDec n ≠ ("") := by
  intro h
  have hn : n < 10 ^ (n + 1) :=
    lt_of_lt_of_le (Nat.lt_pow_self (by norm_num) n)
      (Nat.pow_le_pow_right (by norm_num) (Nat.le_succ n))
  have hd : toDecGo (n + 1) n [] = [] := congrArg String.data h
  exact (toDecGo_val n n hn).2 hd

theorem branchCandidate_inj (base : String) :
    ∀ i j, branchCandidate base i = branchCandidate base j → i = j := by
  have hlen : ∀ k, branchCandidate base 0 ≠ branchCandidate base (k + 1) := by
    intro k h
    have hd := congrArg String.data h
    simp only [branchCandidate, String.data_append] at hd
    have hlen2 := congrArg List.length hd
    simp only [List.length_append] at hlen2
    have hne : (natToDec (k + 1)).data ≠ [] := by
      intro hc
      exact natToDec_ne_empty (k + 1) (congrArg String.mk hc)
    have : (natToDec (k + 1)).data.length ≠ 0 := fun hc => hne (List.length_eq_zero.mp hc)
    have hdash : ("-" : String).data.length = 1 := rfl
    omega
  intro i j h
  cases i with
  | zero =>
    cases j with
    | zero => rfl
    | succ j => exact absurd h (hlen j)
  | succ i =>
    cases j with
    | zero => exact absurd h.symm (hlen i)
    | succ j =>
      simp only [branchCandidate] at h
      rw [show base ++ "-" ++ natToDec (i + 1) = (base ++ "-") ++ natToDec (i + 1) from rfl,
        show base ++ "-" ++ natToDec (j + 1) = (base ++ "-") ++ natToDec (j + 1) from rfl]
        at h
      have := natToDec_inj _ _ ((append_left_inj_str _ _ _).mp h)
      omega

theorem exists_free_candidate (branches : List String) (base : String) :
    ∃ k ≤ branches.length, branchCandidate base k ∉ branches := by
  by_contra hcon
  push_neg at hcon
  set L := (List.range (branches.length + 1)).map (branchCandidate base) with hL
  have hnodup : L.Nodup := by
    refine List.Nodup.map ?_ (List.nodup_range _)
    intro a b hab
    exact branchCandidate_inj base a b hab
  have hsub : ∀ x ∈ L, x ∈ branches := by
    intro x hx
    obtain ⟨k, hk, rfl⟩ := List.mem_map.mp hx
    exact hcon k (Nat.lt_succ_iff.mp (List.mem_range.mp hk))
  have hcard1 : L.toFinset.card = branches.length + 1 := by
    rw [List.toFinset_card_of_nodup hnodup, hL, List.length_map, List.length_range]
  have hcard2 : L.toFinset.card ≤ branches.length := by
    calc L.toFinset.card ≤ branches.toFinset.card := by
          apply Finset.card_le_card
          intro x hx
          rw [List.mem_toFinset] at hx ⊢
          exact hsub x hx
    _ ≤ branches.length := List.toFinset_card_le branches
  omega

theorem check_branch_exists_iff (branches : List String) (name : String) :
    check_branch_exists branches name = true ↔ name ∈ branches := by
  simp [check_branch_exists, List.elem_iff]

theorem guGo_spec (branches : List String) (base : String) :
    ∀ (fuel k : Nat), (∃ j, j < fuel ∧ branchCandidate base (k + j) ∉ branches) →
      ∃ j, (∀ i, i < j → branchCandidate base (k + i) ∈ branches) ∧
        branchCandidate base (k + j) ∉ branches ∧
        guGo branches base fuel k =
          (branchCandidate base (k + j),
           (List.range (j + 1)).map fun i => branchCandidate base (k + i)) := by
  intro fuel
  induction fuel with
  | zero =>
    intro k hex
    obtain ⟨j, hj, _⟩ := hex
    omega
  | succ fuel ih =>
    intro k hex
    by_cases hk : check_branch_exists branches (branchCandidate base k) = true
    · have hkmem : branchCandidate base k ∈ branches :=
        (check_branch_exists_iff branches _).mp hk
      have hex2 : ∃ j, j < fuel ∧ branchCandidate base ((k + 1) + j) ∉ branches := by
        obtain ⟨j, hj, hfree⟩ := hex
        cases j with
        | zero => exact absurd (by simpa using hkmem) hfree
        | succ j =>
          exact ⟨j, by omega, by
            rw [show (k + 1) + j = k + (j + 1) from by omega]
            exact hfree⟩
      obtain ⟨j, hcoll, hfree, heq⟩ := ih (k + 1) hex2
      refine ⟨j + 1, ?_, ?_, ?_⟩
      · intro i hi
        cases i with
        | zero => simpa using hkmem
        | succ i =>
          rw [show k + (i + 1) = (k + 1) + i from by omega]
          exact hcoll i (by omega)
      · rw [show k + (j + 1) = (k + 1) + j from by omega]
        exact hfree
      · simp only [guGo, if_pos hk, heq]
        refine congrArg₂ Prod.mk ?_ ?_
        · rw [show k + (j + 1) = (k + 1) + j from by omega]
        · conv_rhs => rw [List.range_succ_eq_map]
          rw [List.map_cons, List.map_map]
          refine congrArg₂ List.cons (by simp) ?_
          refine List.map_congr_left ?_
          intro i hi
          show branchCandidate base ((k + 1) + i) = branchCandidate base (k + (i + 1))
          rw [show k + (i + 1) = (k + 1) + i from by omega]
    · refine ⟨0, fun i hi => absurd hi (Nat.not_lt_zero i), ?_, ?_⟩
      · intro hc
        exact hk ((check_branch_exists_iff branches _).mpr (by simpa using hc))
      · simp only [guGo, if_neg hk]
        simp [List.range_succ]

/-- C3: for every existing branch set and base name, the unique-branch
selection starts from the base name (`branchCandidate base 0 = base`) and on
collision probes `base-1`, `base-2`, ... (`branchCandidate base (c+1)`),
returning the first candidate not in the branch list: every earlier probe
collides, the probes are exactly candidates `0..k`, and the returned name is
never in the existing branch set.  In particular, with existing branches
`{"doc-update", "doc-update-1"}` and base name `"doc-update"` it returns
`"doc-update-2"`. -/
theorem c3_unique_branch_name (branches : List String) (base : String) :
    get_unique_branch_name branches base ∉ branches ∧
    (∃ k, get_unique_branch_name branches base = branchCandidate base k ∧
      (∀ i, i < k → branchCandidate base i ∈ branches) ∧
      branch_probes branches base =
        (List.range (k + 1)).map fun i => branchCandidate base i) ∧
    branchCandidate base 0 = base ∧
    (∀ c, branchCandidate base (c + 1) = base ++ "-" ++ natToDec (c + 1)) ∧
    get_unique_branch_name ["doc-update", "doc-update-1"] ("doc-update") =
      ("doc-update-2") := by
  obtain ⟨k0, hk0, hfree⟩ := exists_free_candidate branches base
  obtain ⟨j, hcoll, hfreej, heq⟩ := guGo_spec branches base (branches.length + 1) 0
    ⟨k0, by omega, by simpa using hfree⟩
  have h1 : get_unique_branch_name branches base = branchCandidate base j := by
    rw [get_unique_branch_name, heq]
    simp
  refine ⟨?_, ⟨j, h1, ?_, ?_⟩, rfl, fun c => rfl, by decide⟩
  · rw [h1]
    simpa using hfreej
  · intro i hi
    simpa using hcoll i hi
  · rw [branch_probes, heq]
    simp

/-! ### Pipeline lemmas -/

theorem startsWithError_prefixed (e : String) :
    startsWithError ("Error: " ++ e) = true := by
  have hd : ("Error: " ++ e).data =
      'E' :: 'r' :: 'r' :: 'o' :: 'r' :: ':' :: ' ' :: e.data := by
    have : ("Error: " : String).data = ['E', 'r', 'r', 'o', 'r', ':', ' '] := rfl
    simp [String.data_append, this]
  simp [startsWithError, hd]

theorem isErrorPrint_error (e : String) :
    isErrorPrint (PipeAction.print ("Error: " ++ e)) = true := by
  simp [isErrorPrint, startsWithError_prefixed]

theorem countP_err_zero_of_all (l : List PipeAction)
    (h : ∀ a ∈ l, isErrorPrint a = false) : l.countP isErrorPrint = 0 :=
  List.countP_eq_zero.mpr (by intro a ha; simp [h a ha])

theorem runChecked_all_git (w : World) :
    ∀ ops, ∀ a ∈ (runChecked w ops).1, ∃ args, a = PipeAction.runGit args := by
  intro ops
  induction ops with
  | nil => intro a ha; cases ha
  | cons args rest ih =>
    intro a ha
    rw [runChecked] at ha
    by_cases hok : w.gitOk args = true
    · rw [if_pos hok] at ha
      rcases List.mem_cons.mp ha with rfl | ha2
      · exact ⟨args, rfl⟩
      · exact ih a ha2
    · rw [if_neg hok] at ha
      rcases List.mem_singleton.mp ha with rfl
      exact ⟨args, rfl⟩

theorem commit_and_push_acts_no_err (env : Env) (w : World) (bn fp : String) :
    ∀ a ∈ (commit_and_push env w bn fp).1, isErrorPrint a = false := by
  intro a ha
  rw [commit_and_push] at ha
  rcases List.mem_append.mp ha with hp | hr
  · obtain ⟨n, _, rfl⟩ := List.mem_map.mp hp
    rfl
  · obtain ⟨args, rfl⟩ := runChecked_all_git w _ a hr
    rfl

/-- C7: if the output file already exists when the pipeline starts, the run
performs exactly one action — printing the skip message — so no template
read, no diff retrieval, no completion call, no file write and no git
command is performed, and the run ends normally (the `try` block raises
nothing). -/
theorem c7_skip_when_output_exists (env : Env) (w : World)
    (h : w.output_exists = true) :
    mainRun env w =
      [PipeAction.print (env.OUTPUT_PATH ++ " already exists. Skipping generation.")] ∧
    ∀ a ∈ mainRun env w, (∀ args, a ≠ PipeAction.runGit args) ∧
      a ≠ PipeAction.runGitDiff ∧ a ≠ PipeAction.callCompletion ∧
      (∀ p c, a ≠ PipeAction.writeOutput p c) ∧ (∀ p, a ≠ PipeAction.openTemplate p) := by
  have hmain : mainRun env w =
      [PipeAction.print (env.OUTPUT_PATH ++ " already exists. Skipping generation.")] := by
    rw [mainRun, if_pos h]
  refine ⟨hmain, ?_⟩
  intro a ha
  rw [hmain] at ha
  rcases List.mem_singleton.mp ha with rfl
  exact ⟨fun args => by simp, by simp, by simp, fun p c => by simp, fun p => by simp⟩

/-- Witness for C7 at a concrete environment and world. -/
theorem c7_skip_when_output_exists_witness :
    mainRun
      ⟨("en"), ("tok"), ("o/r"), ("tpl.json"), ("README.md"), ("doc-update")⟩
      ⟨true, Except.ok (Json.obj []), ⟨0, ("")⟩, Except.ok (Json.obj []), [],
        fun _ => true, fun _ => ("boom"), none⟩ =
      [PipeAction.print ("README.md already exists. Skipping generation.")] := by
  have h := (c7_skip_when_output_exists
    ⟨("en"), ("tok"), ("o/r"), ("tpl.json"), ("README.md"), ("doc-update")⟩
    ⟨true, Except.ok (Json.obj []), ⟨0, ("")⟩, Except.ok (Json.obj []), [],
      fun _ => true, fun _ => ("boom"), none⟩ rfl).1
  simpa using h

/-- C8: the diff retrieval raises exactly when the underlying `git diff`
invocation exits non-zero, and on a zero exit status it returns the raw
stdout unchanged — no filtering, truncation or size limiting. -/
theorem c8_diff_error_iff (r : RunResult) :
    ((∃ e, get_commit_diff r = Except.error e) ↔ r.returncode ≠ 0) ∧
    (r.returncode = 0 → get_commit_diff r = Except.ok r.stdout) := by
  constructor
  · constructor
    · rintro ⟨e, he⟩ h0
      rw [get_commit_diff, if_neg (by simp [h0])] at he
      cases he
    · intro hne
      exact ⟨("Failed to get git diff."), by rw [get_commit_diff, if_pos hne]⟩
  · intro h0
    rw [get_commit_diff, if_neg (by simp [h0])]

/-- Witness for C8: a zero exit status returns the stdout unchanged, and a
non-zero status errors. -/
theorem c8_diff_error_iff_witness :
    get_commit_diff ⟨0, ("diff text")⟩ = Except.ok ("diff text") ∧
    ∃ e, get_commit_diff ⟨1, ("")⟩ = Except.error e := by
  refine ⟨(c8_diff_error_iff ⟨0, ("diff text")⟩).2 rfl, ?_⟩
  exact (c8_diff_error_iff ⟨1, ("")⟩).1.mpr (by decide)

/-- C9: every raised error is caught exactly once at the top level and
printed with the fixed `Error: ` prefix: across all modelled worlds the run's
trace contains at most one error print, any error print is the final action
(nothing runs after it), and the run always ends normally (the trace is
total, no exception escapes).  In particular, when diff retrieval fails, the
trace stops at the error line: the completion call and every git-publish
step are never attempted. -/
theorem c9_single_error_line (env : Env) (w : World)
    (hpath : startsWithError (env.OUTPUT_PATH ++ " already exists. Skipping generation.") =
      false) :
    (mainRun env w).countP isErrorPrint ≤ 1 ∧
    (mainRun env w).dropLast.countP isErrorPrint = 0 ∧
    (∀ t, w.output_exists = false → w.template_read = Except.ok t →
      w.diff.returncode ≠ 0 →
      mainRun env w = [PipeAction.openTemplate env.TEMPLATE_PATH, PipeAction.runGitDiff,
        PipeAction.print ("Error: " ++ "Failed to get git diff.")]) := by
  have hcore : (mainRun env w).countP isErrorPrint ≤ 1 ∧
      (mainRun env w).dropLast.countP isErrorPrint = 0 := by
    rw [mainRun]
    by_cases hx : w.output_exists = true
    · rw [if_pos hx]
      exact ⟨by simp [List.countP_cons, isErrorPrint, hpath], by simp⟩
    · rw [if_neg hx]
      cases htem : w.template_read with
      | error e =>
        exact ⟨by simp [List.countP_cons, isErrorPrint, startsWithError_prefixed],
          by simp [List.dropLast, List.countP_cons, isErrorPrint]⟩
      | ok t =>
        cases hdiff : get_commit_diff w.diff with
        | error e =>
          exact ⟨by simp [List.countP_cons, isErrorPrint, startsWithError_prefixed],
            by simp [List.dropLast, List.countP_cons, isErrorPrint]⟩
        | ok cd =>
          cases hcomp : w.completion with
          | error e =>
            exact ⟨by simp [List.countP_cons, isErrorPrint, startsWithError_prefixed],
              by simp [List.dropLast, List.countP_cons, isErrorPrint]⟩
          | ok jd =>
            cases hrender : json_to_markdown_value jd with
            | none =>
              refine ⟨?_, ?_⟩
              · simp only [hrender]
                have : ("Error: object has no attribute" : String) =
                    ("Error: " ++ "object has no attribute") := rfl
                simp [List.countP_cons, isErrorPrint, this, startsWithError_prefixed]
              · simp only [hrender]
                simp [List.dropLast, List.countP_cons, isErrorPrint]
            | some content =>
              cases hwr : w.write_err with
              | some e =>
                refine ⟨?_, ?_⟩
                · simp only [hrender, hwr]
                  simp [List.countP_cons, isErrorPrint, startsWithError_prefixed]
                · simp only [hrender, hwr]
                  simp [List.dropLast, List.countP_cons, isErrorPrint]
              | none =>
                simp only [hrender, hwr]
                have hacts := commit_and_push_acts_no_err env w env.BRANCH_NAME env.OUTPUT_PATH
                have hacts0 : ((commit_and_push env w env.BRANCH_NAME env.OUTPUT_PATH).1).countP
                    isErrorPrint = 0 := countP_err_zero_of_all _ hacts
                cases herr : (commit_and_push env w env.BRANCH_NAME env.OUTPUT_PATH).2 with
                | none =>
                  constructor
                  · simp [List.countP_cons, List.countP_append, isErrorPrint, hacts0]
                  · dsimp only
                    refine Nat.le_zero.mp ?_
                    have hall : ∀ a ∈ (PipeAction.openTemplate env.TEMPLATE_PATH ::
                        PipeAction.runGitDiff :: PipeAction.callCompletion ::
                        PipeAction.writeOutput env.OUTPUT_PATH content ::
                        ((commit_and_push env w env.BRANCH_NAME env.OUTPUT_PATH).1 ++ [])),
                        isErrorPrint a = false := by
                      intro a ha
                      rcases List.mem_cons.mp ha with rfl | ha
                      · rfl
                      rcases List.mem_cons.mp ha with rfl | ha
                      · rfl
                      rcases List.mem_cons.mp ha with rfl | ha
                      · rfl
                      rcases List.mem_cons.mp ha with rfl | ha
                      · rfl
                      rw [List.append_nil] at ha
                      exact hacts a ha
                    have hz := countP_err_zero_of_all _ hall
                    calc (PipeAction.openTemplate env.TEMPLATE_PATH ::
                        PipeAction.runGitDiff :: PipeAction.callCompletion ::
                        PipeAction.writeOutput env.OUTPUT_PATH content ::
                        ((commit_and_push env w env.BRANCH_NAME env.OUTPUT_PATH).1 ++
                          [])).dropLast.countP isErrorPrint ≤
                        (PipeAction.openTemplate env.TEMPLATE_PATH ::
                        PipeAction.runGitDiff :: PipeAction.callCompletion ::
                        PipeAction.writeOutput env.OUTPUT_PATH content ::
                        ((commit_and_push env w env.BRANCH_NAME env.OUTPUT_PATH).1 ++
                          [])).countP isErrorPrint :=
                        List.Sublist.countP_le _ (List.dropLast_sublist _)
                    _ = 0 := hz
                | some e =>
                  constructor
                  · simp [List.countP_cons, List.countP_append, isErrorPrint, hacts0,
                      startsWithError_prefixed]
                  · rw [show (PipeAction.openTemplate env.TEMPLATE_PATH ::
                        PipeAction.runGitDiff :: PipeAction.callCompletion ::
                        PipeAction.writeOutput env.OUTPUT_PATH content ::
                        ((commit_and_push env w env.BRANCH_NAME env.OUTPUT_PATH).1 ++
                          [PipeAction.print ("Error: " ++ e)])) =
                        ((PipeAction.openTemplate env.TEMPLATE_PATH ::
                        PipeAction.runGitDiff :: PipeAction.callCompletion ::
                        PipeAction.writeOutput env.OUTPUT_PATH content ::
                        (commit_and_push env w env.BRANCH_NAME env.OUTPUT_PATH).1) ++
                          [PipeAction.print ("Error: " ++ e)]) from by simp,
                      List.dropLast_concat]
                    simp [List.countP_cons, isErrorPrint, hacts0]
  refine ⟨hcore.1, hcore.2, ?_⟩
  intro t h0 htem hrc
  have hdiff : get_commit_diff w.diff = Except.error ("Failed to get git diff.") := by
    rw [get_commit_diff, if_pos hrc]
  rw [mainRun, if_neg (by simp [h0]), htem]
  dsimp only
  rw [hdiff]

/-- Witness for C9: a failing diff retrieval at a concrete world yields
exactly the open-template, run-diff and single error-print actions. -/
theorem c9_single_error_line_witness :
    mainRun
      ⟨("en"), ("tok"), ("o/r"), ("tpl.json"), ("README.md"), ("doc-update")⟩
      ⟨false, Except.ok (Json.obj []), ⟨1, ("")⟩, Except.ok (Json.obj []), [],
        fun _ => true, fun _ => ("boom"), none⟩ =
      [PipeAction.openTemplate ("tpl.json"), PipeAction.runGitDiff,
       PipeAction.print ("Error: " ++ "Failed to get git diff.")] := by
  have h := c9_single_error_line
    ⟨("en"), ("tok"), ("o/r"), ("tpl.json"), ("README.md"), ("doc-update")⟩
    ⟨false, Except.ok (Json.obj []), ⟨1, ("")⟩, Except.ok (Json.obj []), [],
      fun _ => true, fun _ => ("boom"), none⟩
    (by decide)
  exact h.2.2 (Json.obj []) rfl rfl (by decide)
